import Mathlib

/-!
Verification development for the GlassPlay transcode job pipeline
(`src/server/index.js`).

The server code is shallowly embedded as pure Lean functions:
 - the in-memory job registry (`const jobs = new Map()`) becomes an
   association list `Jobs` with `jobsGet` / `jobsSet` / `jobsDelete`
   mirroring `Map.get` / `Map.set` / `Map.delete`;
 - the outputs directory on disk becomes a finite set of file names
   (`List String`) with `fsExists` / `fsAdd` / `fsUnlink` mirroring
   `fs.existsSync` / `fs.copyFileSync`-into-outputs / `fs.unlinkSync`;
 - JavaScript numbers appearing in progress arithmetic become `ℚ`
   (a `NaN`/`undefined` percent field is folded into `Option.none`,
   matching the guard `p.percent && !isNaN(p.percent)` under which
   both are falsy), and stored progress values become `Int`
   (`Math.round` yields an integer);
 - the asynchronous encoder cascade (`tryNextEncoder`) becomes a
   recursion over the remaining encoder configurations driven by a list
   of externally supplied attempt outcomes (subprocess `end`/`error`
   events, the 10-minute kill timer firing, or
   `createFFmpegCommand` returning `null`);
 - `ffprobe` results are an explicit `ProbeResult` argument (the probe
   tool is an external collaborator), and `node`'s `path.parse` /
   `path.extname` splitting of a file name into stem and extension is
   likewise taken as an input pair `(stem, ext)`.
-/

/-- One entry of the in-memory job registry: the object stored by
`jobs.set(jobId, { progress, ready, videoUrl, ambientUrl })` in
`src/server/index.js`.  `ambientUrl` is `none` while the field is
absent/`null`. -/
structure Job where
  progress : Int
  ready : Bool
  videoUrl : String
  ambientUrl : Option String
deriving DecidableEq

/-- The job registry `const jobs = new Map()`, keyed by job id. -/
abbrev Jobs := List (String × Job)

/-- `jobs.get(id)`. -/
def jobsGet (m : Jobs) (k : String) : Option Job :=
  (m.find? (fun pr => pr.1 == k)).map Prod.snd

/-- `jobs.set(id, v)` (also models in-place mutation of a fetched entry,
which updates the same stored object). -/
def jobsSet (m : Jobs) (k : String) (v : Job) : Jobs :=
  (k, v) :: m.filter (fun pr => pr.1 != k)

/-- `jobs.delete(id)`. -/
def jobsDelete (m : Jobs) (k : String) : Jobs :=
  m.filter (fun pr => pr.1 != k)

/-- `jobs.has(id)`. -/
def jobsHas (m : Jobs) (k : String) : Bool :=
  (jobsGet m k).isSome

/-- `fs.existsSync` on the outputs directory, modelled as membership in
the set of present file names. -/
def fsExists (files : List String) (f : String) : Bool :=
  files.contains f

/-- A file coming into existence in the outputs directory (a completed
`copyFileSync` target or a written encoder output). -/
def fsAdd (files : List String) (f : String) : List String :=
  if fsExists files f then files else f :: files

/-- `fs.unlinkSync` on the outputs directory. -/
def fsUnlink (files : List String) (f : String) : List String :=
  files.filter (fun g => g != f)

/-- Characters kept verbatim by the sanitizer regex class `[a-zA-Z0-9_-]`. -/
def isAllowedChar (c : Char) : Bool :=
  (('a' ≤ c && c ≤ 'z') || ('A' ≤ c && c ≤ 'Z') || ('0' ≤ c && c ≤ '9')
    || c == '_' || c == '-')

/-- Per-character action of `name.replace(/[^a-zA-Z0-9_-]/g, '_')`:
a character in the allowed class is kept, every other character is
replaced by an underscore. -/
def sanitizeChar (c : Char) : Char :=
  if isAllowedChar c then c else '_'

/-- `path.parse(fileName).name.replace(/[^a-zA-Z0-9_-]/g, '_')` — the
base-name sanitization applied at both ingress endpoints
(`src/server/index.js` lines 104 and 308). -/
def sanitize (s : String) : String :=
  ⟨s.data.map sanitizeChar⟩

/-- `path.extname(originalname) || '.mp4'`. -/
def extOrMp4 (ext : String) : String :=
  if ext = "" then ".mp4" else ext

/-- URL under which a cached file is served (`/media/${filename}`). -/
def mediaUrl (f : String) : String :=
  "/media/" ++ f

/-- One entry of the static encoder priority list: a backend name plus
its tuning flags. -/
structure EncoderConfig where
  name : String
  options : List String
deriving DecidableEq, Inhabited

/-- The encoder cascade priority list (`const encoders = [...]`). -/
def encoders : List EncoderConfig :=
  [⟨"h264_amf", ["-quality", "speed", "-cq", "23"]⟩,
   ⟨"h264_nvenc", ["-preset", "p4", "-cq", "23"]⟩,
   ⟨"h264_qsv", ["-preset", "fast", "-q", "23"]⟩,
   ⟨"libx264", ["-preset", "fast", "-crf", "23"]⟩]

/-- One stream descriptor as reported by the probe tool
(`data.streams[i]`).  `language` is `stream.tags?.language`
(`none` when the tag is absent). -/
structure StreamInfo where
  index : Int
  codec_type : String
  codec_name : String
  channels : Option Int
  language : Option String
deriving DecidableEq

/-- `data.format` of a probe result. -/
structure FormatInfo where
  duration : Option ℚ
deriving DecidableEq

/-- The `data` object of a probe callback; `streams` is `none` when the
field is absent. -/
structure ProbeData where
  streams : Option (List StreamInfo)
  format : Option FormatInfo
deriving DecidableEq

/-- Outcome of one `ffmpeg.ffprobe` invocation: either the callback got
a truthy `err`, or it got a `data` object. -/
inductive ProbeResult where
  | failure
  | ok (data : ProbeData)
deriving DecidableEq

/-- Audio track descriptor pushed by the metadata extraction loop. -/
structure AudioTrack where
  index : Int
  channels : Option Int
  codec : String
  language : String
deriving DecidableEq

/-- Subtitle track descriptor pushed by the metadata extraction loop. -/
structure SubtitleTrack where
  index : Int
  codec : String
  language : String
deriving DecidableEq

/-- `stream.tags?.language || 'und'`. -/
def languageOrUnd (lang : Option String) : String :=
  match lang with
  | some l => if l = "" then "und" else l
  | none => "und"

/-- The `extractMetadata` helper (`src/server/index.js` lines 491-520):
from one probe outcome, build the audio-track list, the subtitle list
and the input duration.  The guard `if (!err && data && data.streams)`
means every failure shape degrades to `([], [], 0)`; the callback is
always invoked, never an exception — in this embedding that is the
totality of the function. -/
def extractMetadata (r : ProbeResult) : List AudioTrack × List SubtitleTrack × ℚ :=
  match r with
  | .failure => ([], [], 0)
  | .ok d =>
    match d.streams with
    | none => ([], [], 0)
    | some streams =>
      let audio := streams.filterMap (fun s =>
        if s.codec_type = "audio" then
          some ⟨s.index, s.channels, s.codec_name, languageOrUnd s.language⟩
        else none)
      let subs : List SubtitleTrack := streams.filterMap (fun s =>
        if s.codec_type = "subtitle" then
          some ⟨s.index, s.codec_name, languageOrUnd s.language⟩
        else none)
      let dur : ℚ :=
        match d.format with
        | some f =>
          match f.duration with
          | some q => if q ≠ 0 then q else 0
          | none => 0
        | none => 0
      (audio, subs, dur)

/-- The probe shapes for which the guard
`if (!err && data && data.streams)` fails and the defaults survive. -/
def probeDegraded (r : ProbeResult) : Bool :=
  match r with
  | .failure => true
  | .ok d => d.streams.isNone

/-- One `progress` event payload of a running attempt.  `percent` is
`none` when `p.percent` is `undefined` or `NaN` (both falsy under the
source guard `p.percent && !isNaN(p.percent)`); `timemark` holds the
three components of `p.timemark.split(':').map(Number)` for a
well-formed `HH:MM:SS.xx` timemark, `none` when the field is
absent/empty. -/
structure ProgressEvent where
  percent : Option ℚ
  timemark : Option (ℚ × ℚ × ℚ)
deriving DecidableEq

/-- JavaScript `Math.round`: round half toward positive infinity. -/
def jsRound (q : ℚ) : Int :=
  ⌊q + 1/2⌋

/-- The `else if (p.timemark && inputDuration)` branch:
`seconds / inputDuration * 100` with
`seconds = parts[0]*3600 + parts[1]*60 + parts[2]`; the surrounding
`let percent = 0` survives when the branch is not taken. -/
def timemarkPercent (p : ProgressEvent) (dur : ℚ) : ℚ :=
  match p.timemark with
  | some (hh, mm, ss) =>
    if dur ≠ 0 then (hh * 3600 + mm * 60 + ss) / dur * 100 else 0
  | none => 0

/-- Percent computation of the `progress` handler installed by
`createFFmpegCommand` (`src/server/index.js` lines 547-559):
`if (p.percent && !isNaN(p.percent)) percent = p.percent; else if
(p.timemark && inputDuration) percent = seconds/inputDuration*100;`
(note that a reported percent of `0` is falsy and falls through). -/
def computePercent (p : ProgressEvent) (dur : ℚ) : ℚ :=
  match p.percent with
  | some q => if q ≠ 0 then q else timemarkPercent p dur
  | none => timemarkPercent p dur

/-- The value stored by the handler:
`entry.progress = Math.min(99, Math.round(percent))`. -/
def storedProgress (p : ProgressEvent) (dur : ℚ) : Int :=
  min 99 (jsRound (computePercent p dur))

/-- The whole `progress` handler: fetch the entry (return unchanged when
the job is gone), store the clamped rounded percent, write back. -/
def onProgress (jobs : Jobs) (jobId : String) (p : ProgressEvent) (dur : ℚ) : Jobs :=
  match jobsGet jobs jobId with
  | none => jobs
  | some entry => jobsSet jobs jobId { entry with progress := storedProgress p dur }

/-- Server state shared by every request: the job registry and the set
of files present in the outputs directory. -/
structure ServerState where
  jobs : Jobs
  outputs : List String
deriving DecidableEq

/-- How one encoder attempt of the cascade resolves, as observed through
the handlers installed in `tryNextEncoder`:
 - `success` — the subprocess fired `end` (the output file was written);
 - `encError w` — the subprocess fired `error`; `w` records whether a
   partial output file had been written to disk by then;
 - `timerKill w` — the 10-minute `killTimer` fired; `w` as above;
 - `createFailed` — `createFFmpegCommand` returned `null` and the
   cascade advanced synchronously. -/
inductive AttemptOutcome where
  | success
  | encError (wroteFile : Bool)
  | timerKill (wroteFile : Bool)
  | createFailed
deriving DecidableEq

/-- Whether an outcome is the successful one. -/
def isSuccess (o : AttemptOutcome) : Bool :=
  match o with
  | .success => true
  | _ => false

/-- Effect on the outputs directory of the subprocess having (or not
having) written a partial/complete output file at `af`. -/
def attemptWrite (wroteFile : Bool) (files : List String) (af : String) : List String :=
  if wroteFile then fsAdd files af else files

/-- The cleanup in the `killTimer` callback:
`if (fs.existsSync(ambientPath)) fs.unlinkSync(ambientPath)`. -/
def timeoutCleanup (files : List String) (af : String) : List String :=
  if fsExists files af then fsUnlink files af else files

/-- The `end` handler (`src/server/index.js` lines 180-189): fetch the
entry and, when it is still registered, set `progress = 100`,
`ready = true` and the derivative reference. -/
def endHandler (jobs : Jobs) (jobId af : String) : Jobs :=
  match jobsGet jobs jobId with
  | none => jobs
  | some entry =>
    jobsSet jobs jobId
      { entry with progress := 100, ready := true, ambientUrl := some (mediaUrl af) }

/-- The encoder cascade `tryNextEncoder` (`src/server/index.js`
lines 131-219), driven by one externally observed outcome per attempt:
 - with no configurations left, the job is deleted from the registry
   (`jobs.delete(jobId)`) — permanent failure;
 - otherwise the next configuration is consumed; on `success` the `end`
   handler runs and the cascade stops (the written output stays on
   disk); on `encError` the `error` handler runs (it only clears the
   kill timer and recurses — it does not touch the disk); on
   `timerKill` the kill-timer callback runs (kill the subprocess,
   delete any partial output, recurse); on `createFailed` the cascade
   recurses directly.
An empty outcome list leaves the state as-is: that attempt is still
running and no further event has been delivered. -/
def tryNextEncoder (jobId af : String) :
    List EncoderConfig → List AttemptOutcome → ServerState → ServerState
  | [], _, st => { st with jobs := jobsDelete st.jobs jobId }
  | _ :: rest, outcomes, st =>
    match outcomes with
    | [] => st
    | .success :: _ =>
      { jobs := endHandler st.jobs jobId af, outputs := fsAdd st.outputs af }
    | .encError w :: os =>
      tryNextEncoder jobId af rest os
        { st with outputs := attemptWrite w st.outputs af }
    | .timerKill w :: os =>
      tryNextEncoder jobId af rest os
        { st with outputs := timeoutCleanup (attemptWrite w st.outputs af) af }
    | .createFailed :: os =>
      tryNextEncoder jobId af rest os st

/-- Reply of `GET /progress/:id` (`src/server/index.js` lines 573-577):
`404 { error: 'Unknown job' }` when the registry has no entry,
otherwise the entry itself. -/
inductive ProgressReply where
  | notFound
  | ok (j : Job)
deriving DecidableEq

/-- The `GET /progress/:id` handler. -/
def getProgress (jobs : Jobs) (id : String) : ProgressReply :=
  match jobsGet jobs id with
  | none => .notFound
  | some j => .ok j

/-- The JSON body returned by both ingress endpoints. -/
structure IngressResponse where
  id : String
  videoUrl : String
  ambientUrl : Option String
  ready : Bool
  audioTracks : List AudioTrack
  subtitles : List SubtitleTrack
deriving DecidableEq

/-- Reply of `POST /video/upload-local`: `400` when no file field was
sent, otherwise the JSON payload. -/
inductive LocalResp where
  | badRequest
  | ok (r : IngressResponse)
deriving DecidableEq

/-- `ready` field of a local-upload reply, when one was produced. -/
def respReady (r : LocalResp) : Option Bool :=
  match r with
  | .badRequest => none
  | .ok resp => some resp.ready

/-- Result of running the `POST /video/upload-local` handler up to its
response: the reply, the server state at response time, and whether the
encoder cascade was started (`tryNextEncoder()` called) for this
request. -/
structure LocalResult where
  resp : LocalResp
  st : ServerState
  cascadeStarted : Bool
deriving DecidableEq

/-- Fresh in-flight registry entry
`{ progress: 0, ready: false, videoUrl }`. -/
def inflightEntry (orig : String) : Job :=
  ⟨0, false, mediaUrl orig, none⟩

/-- Cached-derivative registry entry
`{ progress: 100, ready: true, videoUrl, ambientUrl }`. -/
def cachedEntry (orig af : String) : Job :=
  ⟨100, true, mediaUrl orig, some (mediaUrl af)⟩

/-- The `POST /video/upload-local` handler (`src/server/index.js`
lines 93-283), embedded synchronously up to the point where the HTTP
response is sent; effects of the asynchronously running cascade are
applied separately through `tryNextEncoder` afterwards.  Inputs:
`hasFile` — whether a multipart `video` field arrived; `(stem, ext)` —
`path.parse(originalname).name` and `path.extname(originalname)`;
`useF` — `req.query.useFfmpeg !== 'false'`; `jobId` — the freshly
generated UUID; `probe` — outcome of the synchronous track-metadata
probe.  (The temp upload in `uploads/` and its removal happen outside
the outputs directory and are not part of `ServerState`.) -/
def uploadLocal (st : ServerState) (hasFile : Bool) (stem ext : String)
    (useF : Bool) (jobId : String) (probe : ProbeResult) : LocalResult :=
  match hasFile with
  | false => ⟨.badRequest, st, false⟩
  | true =>
    let baseName := sanitize stem
    let originalFilename := baseName ++ extOrMp4 ext
    let af := baseName ++ "-ambient.mp4"
    let ambientFilename : Option String := if useF then some af else none
    -- `if (useFfmpeg) { if (!fs.existsSync(ambientPath)) {start cascade}
    -- else {register cached entry} }`
    let jobs1 : Jobs :=
      if useF then
        if fsExists st.outputs af then
          jobsSet st.jobs jobId (cachedEntry originalFilename af)
        else
          jobsSet st.jobs jobId (inflightEntry originalFilename)
      else st.jobs
    let started : Bool := useF && !(fsExists st.outputs af)
    -- `if (!fs.existsSync(originalPath)) fs.copyFileSync(...)`
    let outputs1 := fsAdd st.outputs originalFilename
    let md := extractMetadata probe
    -- `const readyFlag = !useFfmpeg || (ambientFilename &&
    --   fs.existsSync(path.join(outputsDir, ambientFilename)))`
    let readyFlag : Bool :=
      !useF || (match ambientFilename with
                | some a => fsExists outputs1 a
                | none => false)
    -- `if (!jobs.has(jobId)) jobs.set(jobId, {...})`
    let jobs2 :=
      if jobsHas jobs1 jobId then jobs1
      else
        jobsSet jobs1 jobId
          ⟨if readyFlag then 100 else 0, readyFlag, mediaUrl originalFilename,
           ambientFilename.map mediaUrl⟩
    ⟨.ok ⟨jobId, mediaUrl originalFilename, ambientFilename.map mediaUrl,
          readyFlag, md.1, md.2.1⟩,
     ⟨jobs2, outputs1⟩, started⟩

/-- Reply of `POST /video/upload-electron`: `400` when the body carries
no `filePath`, `404` when that path does not exist, otherwise the JSON
payload. -/
inductive ElectronResp where
  | badRequest
  | fileNotFound
  | ok (r : IngressResponse)
deriving DecidableEq

/-- `ready` field of an electron-upload reply, when one was produced. -/
def respReadyE (r : ElectronResp) : Option Bool :=
  match r with
  | .ok resp => some resp.ready
  | _ => none

/-- `id` field of an electron-upload reply, when one was produced. -/
def respIdE (r : ElectronResp) : Option String :=
  match r with
  | .ok resp => some resp.id
  | _ => none

/-- Result of running the `POST /video/upload-electron` handler up to
its response. -/
structure ElectronResult where
  resp : ElectronResp
  st : ServerState
  cascadeStarted : Bool
deriving DecidableEq

/-- The `POST /video/upload-electron` handler (`src/server/index.js`
lines 286-488), embedded synchronously up to the response.  Inputs as
for `uploadLocal`, plus `sourceExists` — `fs.existsSync(filePath)` for
the referenced local path.  Unlike `uploadLocal`, the original is
copied unconditionally, and the `useFfmpeg === false` path sends its
response without ever touching the job registry. -/
def uploadElectron (st : ServerState) (hasPath sourceExists : Bool)
    (stem ext : String) (useF : Bool) (jobId : String)
    (probe : ProbeResult) : ElectronResult :=
  match hasPath with
  | false => ⟨.badRequest, st, false⟩
  | true =>
    match sourceExists with
    | false => ⟨.fileNotFound, st, false⟩
    | true =>
      let baseName := sanitize stem
      let originalFilename := baseName ++ extOrMp4 ext
      -- `fs.copyFileSync(filePath, originalPath)` (unconditional)
      let outputs1 := fsAdd st.outputs originalFilename
      let md := extractMetadata probe
      if useF then
        let af := baseName ++ "-ambient.mp4"
        if fsExists outputs1 af then
          -- cached: register the completed entry, fall through to the
          -- common `ready: true` response
          ⟨.ok ⟨jobId, mediaUrl originalFilename, some (mediaUrl af), true,
                md.1, md.2.1⟩,
           ⟨jobsSet st.jobs jobId (cachedEntry originalFilename af), outputs1⟩,
           false⟩
        else
          -- in-flight: register the fresh entry, start the cascade,
          -- respond `ready: false` immediately
          ⟨.ok ⟨jobId, mediaUrl originalFilename, some (mediaUrl af), false,
                md.1, md.2.1⟩,
           ⟨jobsSet st.jobs jobId (inflightEntry originalFilename), outputs1⟩,
           true⟩
      else
        -- no transcoding requested: respond `ready: true`; note that no
        -- registry entry is ever created on this path
        ⟨.ok ⟨jobId, mediaUrl originalFilename, none, true, md.1, md.2.1⟩,
         ⟨st.jobs, outputs1⟩, false⟩

/-- One externally observable event mutating the server state: a request
to either ingress endpoint, a progress event delivered to a running
attempt, or a (suffix of a) cascade resolving through its attempt
outcomes. -/
inductive Event where
  | evUploadLocal (hasFile : Bool) (stem ext : String) (useF : Bool)
      (jobId : String) (probe : ProbeResult)
  | evUploadElectron (hasPath sourceExists : Bool) (stem ext : String)
      (useF : Bool) (jobId : String) (probe : ProbeResult)
  | evProgress (jobId : String) (p : ProgressEvent) (dur : ℚ)
  | evCascade (jobId af : String) (encs : List EncoderConfig)
      (outcomes : List AttemptOutcome)
deriving DecidableEq

/-- State transition of one event. -/
def applyEvent (st : ServerState) : Event → ServerState
  | .evUploadLocal hasFile stem ext useF jobId probe =>
    (uploadLocal st hasFile stem ext useF jobId probe).st
  | .evUploadElectron hasPath sourceExists stem ext useF jobId probe =>
    (uploadElectron st hasPath sourceExists stem ext useF jobId probe).st
  | .evProgress jobId p dur =>
    { st with jobs := onProgress st.jobs jobId p dur }
  | .evCascade jobId af encs outcomes =>
    tryNextEncoder jobId af encs outcomes st

/-- Run a sequence of events. -/
def runEvents : ServerState → List Event → ServerState
  | st, [] => st
  | st, e :: es => runEvents (applyEvent st e) es

/-- Delivery discipline the real event loop obeys: a `progress` event of
a running encoder subprocess only ever targets a job that is still
in-flight (`ready = false`) — the `end` event, which flips `ready`, is
the last event its command emits, and no attempt of that job runs
afterwards.  Other events carry no such obligation. -/
def goodEvent (st : ServerState) : Event → Bool
  | .evProgress jobId _ _ =>
    match jobsGet st.jobs jobId with
    | some j => !j.ready
    | none => true
  | _ => true

/-- A trace is good when every event obeys `goodEvent` in the state it
fires from. -/
def goodTrace : ServerState → List Event → Bool
  | _, [] => true
  | st, e :: es => goodEvent st e && goodTrace (applyEvent st e) es

/-- The registry invariant of claim C6: on every stored entry,
`progress = 100` exactly when `ready = true`. -/
def JobInvariant (j : Job) : Prop :=
  j.progress = 100 ↔ j.ready = true

/-- `JobInvariant` on every entry of a registry. -/
def RegistryInv (m : Jobs) : Prop :=
  ∀ pr ∈ m, JobInvariant pr.2

/-! ### Registry / file-set helper lemmas -/

theorem jobsGet_set_self (m : Jobs) (k : String) (v : Job) :
    jobsGet (jobsSet m k v) k = some v := by
  simp [jobsGet, jobsSet, List.find?]

theorem jobsGet_delete_self (m : Jobs) (k : String) :
    jobsGet (jobsDelete m k) k = none := by
  unfold jobsGet jobsDelete
  induction m with
  | nil => rfl
  | cons pr rest ih =>
    rw [List.filter_cons]
    by_cases h : pr.1 = k
    · simp [h, ih]
    · simp [h, ih]

theorem mem_jobsSet (m : Jobs) (k : String) (v : Job) (pr : String × Job)
    (h : pr ∈ jobsSet m k v) : pr = (k, v) ∨ pr ∈ m := by
  rcases List.mem_cons.mp h with h1 | h1
  · exact Or.inl h1
  · exact Or.inr (List.mem_of_mem_filter h1)

theorem mem_jobsDelete (m : Jobs) (k : String) (pr : String × Job)
    (h : pr ∈ jobsDelete m k) : pr ∈ m :=
  List.mem_of_mem_filter h

theorem fsExists_fsAdd_of (files : List String) (x y : String)
    (h : fsExists files x = true) : fsExists (fsAdd files y) x = true := by
  have hx : x ∈ files := by simpa [fsExists] using h
  unfold fsAdd
  cases hy : fsExists files y with
  | true => simpa [fsExists] using hx
  | false =>
    simp [fsExists]
    exact Or.inr hx

theorem fsExists_fsUnlink_self (files : List String) (x : String) :
    fsExists (fsUnlink files x) x = false := by
  simp [fsExists, fsUnlink, List.mem_filter]

theorem fsExists_timeoutCleanup_self (files : List String) (x : String) :
    fsExists (timeoutCleanup files x) x = false := by
  unfold timeoutCleanup
  cases h : fsExists files x with
  | true => simp [fsExists_fsUnlink_self]
  | false => simpa using h

theorem jobsHas_set_self (m : Jobs) (k : String) (v : Job) :
    jobsHas (jobsSet m k v) k = true := by
  simp [jobsHas, jobsGet_set_self]

/-! ### Sanitizer lemmas -/

theorem sanitizeChar_allowed (c : Char) :
    isAllowedChar (sanitizeChar c) = true := by
  unfold sanitizeChar
  by_cases h : isAllowedChar c = true
  · simp [h]
  · rw [if_neg h]
    decide

theorem sanitizeChar_of_allowed (c : Char) (h : isAllowedChar c = true) :
    sanitizeChar c = c := by
  simp [sanitizeChar, h]

theorem sanitizeChar_idem (c : Char) :
    sanitizeChar (sanitizeChar c) = sanitizeChar c :=
  sanitizeChar_of_allowed _ (sanitizeChar_allowed c)

/-- C9: for every input filename, the sanitized base name
(`name.replace(/[^a-zA-Z0-9_-]/g, '_')`) contains only characters from
`[A-Za-z0-9_-]`, and sanitization is idempotent: sanitizing an
already-sanitized name returns it unchanged. -/
theorem c9_sanitize_charset_and_idempotent (s : String) :
    ((sanitize s).data.all isAllowedChar) = true
      ∧ sanitize (sanitize s) = sanitize s := by
  constructor
  · show ((s.data.map sanitizeChar).all isAllowedChar) = true
    rw [List.all_eq_true]
    intro c hc
    rcases List.mem_map.mp hc with ⟨c0, _, rfl⟩
    exact sanitizeChar_allowed c0
  · show (⟨(s.data.map sanitizeChar).map sanitizeChar⟩ : String) = ⟨s.data.map sanitizeChar⟩
    rw [List.map_map]
    congr 1
    exact List.map_congr_left (fun c _ => sanitizeChar_idem c)

/-- C8: for every probe outcome, including those of missing or corrupt
files (a truthy `err`, an absent `data`, or an absent `data.streams`),
`extractMetadata` never raises — in this embedding it is a total
function that always invokes its continuation — and on any such probe
failure it yields empty audio-track and subtitle lists and duration 0.
Additionally, a successful probe whose streams contain no audio and no
subtitle entries yields empty track lists. -/
theorem c8_probe_degrades_to_defaults (r : ProbeResult) (d : ProbeData)
    (streams : List StreamInfo) :
    (probeDegraded r = true → extractMetadata r = ([], [], 0))
    ∧ (d.streams = some streams →
        streams.all (fun s => s.codec_type != "audio" && s.codec_type != "subtitle") = true →
        (extractMetadata (.ok d)).1 = [] ∧ (extractMetadata (.ok d)).2.1 = []) := by
  constructor
  · intro hdeg
    cases r with
    | failure => rfl
    | ok d2 =>
      simp only [probeDegraded, Option.isNone_iff_eq_none] at hdeg
      simp [extractMetadata, hdeg]
  · intro hs hnone
    rw [List.all_eq_true] at hnone
    constructor
    · simp only [extractMetadata, hs]
      rw [List.filterMap_eq_nil_iff]
      intro s hmem
      have h2 := hnone s hmem
      simp only [Bool.and_eq_true, bne_iff_ne, ne_eq] at h2
      simp [h2.1]
    · simp only [extractMetadata, hs]
      rw [List.filterMap_eq_nil_iff]
      intro s hmem
      have h2 := hnone s hmem
      simp only [Bool.and_eq_true, bne_iff_ne, ne_eq] at h2
      simp [h2.2]

/-- Witness for C8 at concrete probe outcomes: a failed probe, and a
successful probe of a file with a single video stream. -/
theorem c8_probe_degrades_to_defaults_witness :
    extractMetadata .failure = ([], [], 0)
    ∧ (extractMetadata (.ok ⟨some [⟨0, "video", "h264", none, none⟩],
          some ⟨some 60⟩⟩)).1 = []
    ∧ (extractMetadata (.ok ⟨some [⟨0, "video", "h264", none, none⟩],
          some ⟨some 60⟩⟩)).2.1 = [] := by
  refine ⟨(c8_probe_degrades_to_defaults .failure ⟨none, none⟩ []).1 rfl, ?_, ?_⟩
  · exact ((c8_probe_degrades_to_defaults .failure
      ⟨some [⟨0, "video", "h264", none, none⟩], some ⟨some 60⟩⟩
      [⟨0, "video", "h264", none, none⟩]).2 rfl (by decide)).1
  · exact ((c8_probe_degrades_to_defaults .failure
      ⟨some [⟨0, "video", "h264", none, none⟩], some ⟨some 60⟩⟩
      [⟨0, "video", "h264", none, none⟩]).2 rfl (by decide)).2

/-- Counterexample to C5 as stated: on an event whose reported percent
is the numeric, non-`NaN` value `0` and whose timemark stands at 30
media seconds of a 60-second input, the handler computes 50 (the
timemark-derived value), not the reported percent 0 — the source guard
`p.percent && !isNaN(p.percent)` treats the valid numeric value `0` as
falsy and falls through to the timemark branch. -/
theorem c5_counterexample :
    computePercent ⟨some 0, some (0, 0, 30)⟩ 60 = 50
      ∧ ((50 : ℚ) ≠ 0) := by
  constructor
  · norm_num [computePercent, timemarkPercent]
  · norm_num

/-- C5 (amended): the computed percent equals the event's reported
percent when that value is numeric, valid and nonzero; otherwise, when
a timemark is present and the probed duration is nonzero, it equals the
elapsed media seconds divided by the probed duration times 100;
otherwise it is 0. -/
theorem c5_percent_computation (p : ProgressEvent) (dur : ℚ) :
    (∀ q, p.percent = some q → q ≠ 0 → computePercent p dur = q)
    ∧ (∀ hh mm ss, (p.percent = none ∨ p.percent = some 0) →
        p.timemark = some (hh, mm, ss) → dur ≠ 0 →
        computePercent p dur = (hh * 3600 + mm * 60 + ss) / dur * 100)
    ∧ ((p.percent = none ∨ p.percent = some 0) →
        (p.timemark = none ∨ dur = 0) → computePercent p dur = 0) := by
  refine ⟨?_, ?_, ?_⟩
  · intro q hq hq0
    simp [computePercent, hq, hq0]
  · intro hh mm ss hper ht hdur
    rcases hper with hper | hper <;>
      simp [computePercent, timemarkPercent, hper, ht, hdur]
  · intro hper ht
    have hz : timemarkPercent p 0 = 0 := by
      rcases hp : p.timemark with _ | ⟨hh, mm, ss⟩ <;> simp [timemarkPercent, hp]
    rcases ht with ht | ht
    · rcases hper with hper | hper <;>
        simp [computePercent, timemarkPercent, hper, ht]
    · subst ht
      rcases hper with hper | hper <;> simp [computePercent, hper, hz]

theorem jsRound_nonneg (q : ℚ) (h : 0 ≤ q) : 0 ≤ jsRound q := by
  unfold jsRound
  rw [Int.le_floor]
  push_cast
  linarith

theorem computePercent_nonneg (p : ProgressEvent) (dur : ℚ)
    (hp : ∀ q, p.percent = some q → 0 ≤ q)
    (ht : ∀ hh mm ss, p.timemark = some (hh, mm, ss) → 0 ≤ hh ∧ 0 ≤ mm ∧ 0 ≤ ss)
    (hd : 0 ≤ dur) : 0 ≤ computePercent p dur := by
  have htm : 0 ≤ timemarkPercent p dur := by
    unfold timemarkPercent
    rcases htm : p.timemark with _ | ⟨hh, mm, ss⟩
    · simp
    · obtain ⟨h1, h2, h3⟩ := ht hh mm ss htm
      show 0 ≤ if dur ≠ 0 then (hh * 3600 + mm * 60 + ss) / dur * 100 else 0
      by_cases hdz : dur = 0
      · simp [hdz]
      · rw [if_pos hdz]
        have hsum : 0 ≤ hh * 3600 + mm * 60 + ss := by positivity
        have := div_nonneg hsum hd
        positivity
  unfold computePercent
  rcases hper : p.percent with _ | q
  · exact htm
  · show 0 ≤ if q ≠ 0 then q else timemarkPercent p dur
    by_cases hq : q = 0
    · simp [hq, htm]
    · rw [if_pos hq]
      exact hp q hper

/-- Counterexample to C3 as stated: the handler stores
`Math.min(99, Math.round(percent))` — clamped from above only.  On a
progress event carrying the numeric, non-`NaN` reported percent `-1`
delivered to an in-flight job (`ready = false`), the stored progress is
`-1`, which lies outside `[0, 99]`. -/
theorem c3_counterexample :
    jobsGet (onProgress [("j", inflightEntry "v.mp4")] "j" ⟨some (-1), none⟩ 0) "j"
        = some ⟨-1, false, mediaUrl "v.mp4", none⟩
      ∧ ((-1 : Int) < 0) := by
  constructor
  · have hc : computePercent ⟨some (-1), none⟩ 0 = -1 := by
      norm_num [computePercent]
    have hs : storedProgress ⟨some (-1), none⟩ 0 = -1 := by
      rw [storedProgress, hc]
      norm_num [jsRound]
    simp [onProgress, jobsGet, jobsSet, List.find?, inflightEntry, hs]
  · norm_num

/-- C3 (amended): for every progress event handled while a job is
in-flight, the stored progress value is at most 99 — so the value 100
is only ever set by the completion (`end`) handler — and it lies in
`[0, 99]` whenever the event's numeric payloads are nonnegative (a
nonnegative reported percent, nonnegative timemark components, and a
nonnegative probed duration); the source clamps only from above, so
without those hypotheses the lower bound 0 can be violated. -/
theorem c3_progress_clamped (jobs : Jobs) (jobId : String) (p : ProgressEvent)
    (dur : ℚ) (entry : Job) (hget : jobsGet jobs jobId = some entry)
    (hp : ∀ q, p.percent = some q → 0 ≤ q)
    (ht : ∀ hh mm ss, p.timemark = some (hh, mm, ss) → 0 ≤ hh ∧ 0 ≤ mm ∧ 0 ≤ ss)
    (hd : 0 ≤ dur) :
    jobsGet (onProgress jobs jobId p dur) jobId
        = some { entry with progress := storedProgress p dur }
      ∧ 0 ≤ storedProgress p dur
      ∧ storedProgress p dur ≤ 99 := by
  refine ⟨?_, ?_, min_le_left _ _⟩
  · rw [onProgress, hget]
    exact jobsGet_set_self _ _ _
  · have h0 := computePercent_nonneg p dur hp ht hd
    have h1 := jsRound_nonneg _ h0
    exact le_min (by norm_num) h1

/-- Witness for C3 (amended): an in-flight job receiving a timemark-only
event at 30 of 60 media seconds stores progress 50. -/
theorem c3_progress_clamped_witness :
    jobsGet (onProgress [("j", inflightEntry "v.mp4")] "j" ⟨none, some (0, 0, 30)⟩ 60) "j"
        = some { inflightEntry "v.mp4" with
                   progress := storedProgress ⟨none, some (0, 0, 30)⟩ 60 }
      ∧ 0 ≤ storedProgress ⟨none, some (0, 0, 30)⟩ 60
      ∧ storedProgress ⟨none, some (0, 0, 30)⟩ 60 ≤ 99 :=
  c3_progress_clamped [("j", inflightEntry "v.mp4")] "j" ⟨none, some (0, 0, 30)⟩ 60
    (inflightEntry "v.mp4") (by simp [jobsGet, List.find?])
    (fun q h => nomatch h)
    (fun hh mm ss h => by
      obtain ⟨h1, h2, h3⟩ : (0 : ℚ) = hh ∧ (0 : ℚ) = mm ∧ (30 : ℚ) = ss := by
        have h0 := Option.some.inj h
        exact ⟨congrArg Prod.fst h0, congrArg Prod.fst (congrArg Prod.snd h0),
          congrArg Prod.snd (congrArg Prod.snd h0)⟩
      constructor
      · rw [← h1]
      constructor
      · rw [← h2]
      · rw [← h3]; norm_num)
    (by norm_num)

/-- Witness for C5 (amended) at concrete events: a nonzero reported
percent is used directly; with a zero reported percent the timemark is
used; with no timemark the percent is 0. -/
theorem c5_percent_computation_witness :
    computePercent ⟨some 5, none⟩ 10 = 5
    ∧ computePercent ⟨none, some (0, 0, 3)⟩ 12 = 25
    ∧ computePercent ⟨some 0, none⟩ 12 = 0 := by
  refine ⟨(c5_percent_computation ⟨some 5, none⟩ 10).1 5 rfl (by norm_num), ?_, ?_⟩
  · have h := (c5_percent_computation ⟨none, some (0, 0, 3)⟩ 12).2.1 0 0 3
      (Or.inl rfl) rfl (by norm_num)
    rw [h]
    norm_num
  · exact (c5_percent_computation ⟨some 0, none⟩ 12).2.2 (Or.inr rfl) (Or.inl rfl)

/-- C1: for every ingress request to `POST /video/upload-local` with
transcoding requested whose sanitized base name already has a derivative
`<name>-ambient.mp4` in the output cache, no encoder cascade is started
(`tryNextEncoder` is never called, hence no encoder attempt is made),
the response reports `ready = true` immediately, and the registry entry
reuses the existing derivative. -/
theorem c1_cached_derivative_reused (st : ServerState) (stem ext jobId : String)
    (probe : ProbeResult)
    (h : fsExists st.outputs (sanitize stem ++ "-ambient.mp4") = true) :
    (uploadLocal st true stem ext true jobId probe).cascadeStarted = false
    ∧ (uploadLocal st true stem ext true jobId probe).resp
        = .ok ⟨jobId, mediaUrl (sanitize stem ++ extOrMp4 ext),
            some (mediaUrl (sanitize stem ++ "-ambient.mp4")), true,
            (extractMetadata probe).1, (extractMetadata probe).2.1⟩
    ∧ jobsGet (uploadLocal st true stem ext true jobId probe).st.jobs jobId
        = some (cachedEntry (sanitize stem ++ extOrMp4 ext)
            (sanitize stem ++ "-ambient.mp4")) := by
  have hquer : fsExists (fsAdd st.outputs (sanitize stem ++ extOrMp4 ext))
      (sanitize stem ++ "-ambient.mp4") = true :=
    fsExists_fsAdd_of _ _ _ h
  refine ⟨?_, ?_, ?_⟩
  · simp [uploadLocal, h]
  · simp [uploadLocal, h, hquer]
  · simp [uploadLocal, h, hquer, jobsHas_set_self, jobsGet_set_self]

/-- Witness for C1: a cache already holding `foo-ambient.mp4` receiving
`foo.mp4` with transcoding requested. -/
theorem c1_cached_derivative_reused_witness :
    (uploadLocal ⟨[], ["foo-ambient.mp4"]⟩ true "foo" ".mp4" true "j1" .failure).cascadeStarted
        = false
    ∧ (uploadLocal ⟨[], ["foo-ambient.mp4"]⟩ true "foo" ".mp4" true "j1" .failure).resp
        = .ok ⟨"j1", mediaUrl (sanitize "foo" ++ extOrMp4 ".mp4"),
            some (mediaUrl (sanitize "foo" ++ "-ambient.mp4")), true,
            (extractMetadata .failure).1, (extractMetadata .failure).2.1⟩
    ∧ jobsGet (uploadLocal ⟨[], ["foo-ambient.mp4"]⟩ true "foo" ".mp4" true "j1" .failure).st.jobs "j1"
        = some (cachedEntry (sanitize "foo" ++ extOrMp4 ".mp4")
            (sanitize "foo" ++ "-ambient.mp4")) :=
  c1_cached_derivative_reused ⟨[], ["foo-ambient.mp4"]⟩ "foo" ".mp4" "j1" .failure
    (by decide)

theorem tryNextEncoder_exhaust (jobId af : String) (encs : List EncoderConfig) :
    ∀ (outcomes : List AttemptOutcome) (st : ServerState),
      (∀ o ∈ outcomes, isSuccess o = false) →
      encs.length ≤ outcomes.length →
      jobsGet (tryNextEncoder jobId af encs outcomes st).jobs jobId = none := by
  induction encs with
  | nil =>
    intro outcomes st _ _
    exact jobsGet_delete_self _ _
  | cons c rest ih =>
    intro outcomes st hall hlen
    cases outcomes with
    | nil => simp at hlen
    | cons o os =>
      have hos : ∀ o2 ∈ os, isSuccess o2 = false :=
        fun o2 h2 => hall o2 (List.mem_cons_of_mem _ h2)
      have hlen2 : rest.length ≤ os.length := by
        simpa using hlen
      cases o with
      | success =>
        have hcon := hall .success (List.mem_cons_self _ _)
        simp [isSuccess] at hcon
      | encError w => exact ih os _ hos hlen2
      | timerKill w => exact ih os _ hos hlen2
      | createFailed => exact ih os _ hos hlen2

/-- C2: for every job whose cascade exhausts all encoder configurations
without a success, the job is removed from the registry, and polling
that job id — as well as any id that was never created — returns the
not-found error, with no further progress expected. -/
theorem c2_exhausted_cascade_not_found (jobId af : String)
    (encs : List EncoderConfig) (outcomes : List AttemptOutcome)
    (st : ServerState)
    (hall : ∀ o ∈ outcomes, isSuccess o = false)
    (hlen : encs.length ≤ outcomes.length) :
    jobsGet (tryNextEncoder jobId af encs outcomes st).jobs jobId = none
    ∧ getProgress (tryNextEncoder jobId af encs outcomes st).jobs jobId = .notFound
    ∧ ∀ (m : Jobs) (otherId : String), jobsGet m otherId = none →
        getProgress m otherId = .notFound := by
  have h1 := tryNextEncoder_exhaust jobId af encs outcomes st hall hlen
  refine ⟨h1, ?_, ?_⟩
  · rw [getProgress, h1]
  · intro m otherId hm
    rw [getProgress, hm]

/-- Witness for C2: a four-encoder cascade resolving error, command
creation failure, timeout, error; plus a poll of a never-created id on
an empty registry. -/
theorem c2_exhausted_cascade_not_found_witness :
    jobsGet (tryNextEncoder "j" "v-ambient.mp4" encoders
        [.encError false, .createFailed, .timerKill true, .encError false]
        ⟨[("j", inflightEntry "v.mp4")], ["v.mp4"]⟩).jobs "j" = none
    ∧ getProgress (tryNextEncoder "j" "v-ambient.mp4" encoders
        [.encError false, .createFailed, .timerKill true, .encError false]
        ⟨[("j", inflightEntry "v.mp4")], ["v.mp4"]⟩).jobs "j" = .notFound
    ∧ getProgress [] "never-created" = .notFound := by
  have h := c2_exhausted_cascade_not_found "j" "v-ambient.mp4" encoders
    [.encError false, .createFailed, .timerKill true, .encError false]
    ⟨[("j", inflightEntry "v.mp4")], ["v.mp4"]⟩
    (by decide) (by decide)
  exact ⟨h.1, h.2.1, h.2.2 [] "never-created" rfl⟩

/-- C4: for every encoder attempt whose 10-minute kill timer fires, the
subprocess is killed, any partial output file is deleted (it no longer
exists on disk afterwards), and the cascade advances to the next
configuration — or fails if none remain — through the same continuation
as an encoder error; with no partial file on disk the timeout and error
transitions coincide exactly. -/
theorem c4_timeout_cleanup_advances (jobId af : String) (c : EncoderConfig)
    (rest : List EncoderConfig) (w : Bool) (os : List AttemptOutcome)
    (st : ServerState) (hnf : fsExists st.outputs af = false) :
    fsExists (timeoutCleanup (attemptWrite w st.outputs af) af) af = false
    ∧ tryNextEncoder jobId af (c :: rest) (.timerKill w :: os) st
        = tryNextEncoder jobId af rest os
            { st with outputs := timeoutCleanup (attemptWrite w st.outputs af) af }
    ∧ tryNextEncoder jobId af (c :: rest) (.timerKill false :: os) st
        = tryNextEncoder jobId af (c :: rest) (.encError false :: os) st := by
  refine ⟨fsExists_timeoutCleanup_self _ _, rfl, ?_⟩
  show tryNextEncoder jobId af rest os
      { st with outputs := timeoutCleanup (attemptWrite false st.outputs af) af }
    = tryNextEncoder jobId af rest os
      { st with outputs := attemptWrite false st.outputs af }
  have hclean : timeoutCleanup (attemptWrite false st.outputs af) af
      = attemptWrite false st.outputs af := by
    simp only [attemptWrite, if_neg Bool.false_ne_true, timeoutCleanup]
    rw [if_neg (by simp [hnf])]
  rw [hclean]

/-- Witness for C4: a timeout with a partial file written, starting from
an empty outputs directory. -/
theorem c4_timeout_cleanup_advances_witness :
    fsExists (timeoutCleanup (attemptWrite true [] "v-ambient.mp4") "v-ambient.mp4")
        "v-ambient.mp4" = false
    ∧ tryNextEncoder "j" "v-ambient.mp4" encoders [.timerKill true]
          ⟨[("j", inflightEntry "v.mp4")], []⟩
        = tryNextEncoder "j" "v-ambient.mp4" encoders.tail []
            { (⟨[("j", inflightEntry "v.mp4")], []⟩ : ServerState) with
                outputs := timeoutCleanup (attemptWrite true [] "v-ambient.mp4")
                  "v-ambient.mp4" }
    ∧ tryNextEncoder "j" "v-ambient.mp4" encoders [.timerKill false]
          ⟨[("j", inflightEntry "v.mp4")], []⟩
        = tryNextEncoder "j" "v-ambient.mp4" encoders [.encError false]
          ⟨[("j", inflightEntry "v.mp4")], []⟩ := by
  have h := c4_timeout_cleanup_advances "j" "v-ambient.mp4" encoders.head!
    encoders.tail true [] ⟨[("j", inflightEntry "v.mp4")], []⟩ (by decide)
  have h2 := c4_timeout_cleanup_advances "j" "v-ambient.mp4" encoders.head!
    encoders.tail false [] ⟨[("j", inflightEntry "v.mp4")], []⟩ (by decide)
  exact ⟨h.1, h.2.1, h2.2.2⟩

/-- Counterexample to C7 as stated: the `error` handler only clears the
kill timer and calls `tryNextEncoder` — it never deletes the output
file.  Starting from an empty outputs directory, after an encoder error
that had written a partial `v-ambient.mp4`, the cascade has advanced to
the next configuration while the partial file still exists on disk. -/
theorem c7_counterexample :
    fsExists (tryNextEncoder "j" "v-ambient.mp4" encoders [.encError true]
        ⟨[("j", inflightEntry "v.mp4")], []⟩).outputs "v-ambient.mp4" = true := by
  decide

/-- C7 (amended): on an encoder-reported error the cascade advances to
the next configuration without touching the disk — the partial output
file is not discarded (it is left to be overwritten by the next attempt,
or left behind if the cascade is exhausted); only the timeout path
deletes it. -/
theorem c7_error_keeps_partial_output (jobId af : String) (c : EncoderConfig)
    (rest : List EncoderConfig) (w : Bool) (os : List AttemptOutcome)
    (st : ServerState) :
    tryNextEncoder jobId af (c :: rest) (.encError w :: os) st
        = tryNextEncoder jobId af rest os
            { st with outputs := attemptWrite w st.outputs af }
    ∧ (w = true → fsExists (attemptWrite w st.outputs af) af = true) := by
  refine ⟨rfl, ?_⟩
  intro hw
  subst hw
  show fsExists (fsAdd st.outputs af) af = true
  unfold fsAdd
  cases hx : fsExists st.outputs af with
  | true => simpa using hx
  | false => simp [fsExists]

/-- Witness for C7 (amended): first encoder errors after writing a
partial file; the cascade moves on with the file present. -/
theorem c7_error_keeps_partial_output_witness :
    tryNextEncoder "j" "v-ambient.mp4" (encoders.head! :: encoders.tail)
        [.encError true] ⟨[("j", inflightEntry "v.mp4")], []⟩
      = tryNextEncoder "j" "v-ambient.mp4" encoders.tail []
          { (⟨[("j", inflightEntry "v.mp4")], []⟩ : ServerState) with
              outputs := attemptWrite true [] "v-ambient.mp4" }
    ∧ fsExists (attemptWrite true [] "v-ambient.mp4") "v-ambient.mp4" = true := by
  have h := c7_error_keeps_partial_output "j" "v-ambient.mp4" encoders.head!
    encoders.tail true [] ⟨[("j", inflightEntry "v.mp4")], []⟩
  exact ⟨h.1, h.2 rfl⟩

/-! ### Registry invariant preservation (for C6) -/

theorem jobInvariant_inflight (orig : String) : JobInvariant (inflightEntry orig) := by
  simp [JobInvariant, inflightEntry]

theorem jobInvariant_cached (orig af : String) : JobInvariant (cachedEntry orig af) :=
  ⟨fun _ => rfl, fun _ => rfl⟩

theorem jobInvariant_flag (r : Bool) (u : String) (a : Option String) :
    JobInvariant ⟨if r then 100 else 0, r, u, a⟩ := by
  cases r <;> simp [JobInvariant]

theorem registryInv_set (m : Jobs) (k : String) (v : Job)
    (hm : RegistryInv m) (hv : JobInvariant v) : RegistryInv (jobsSet m k v) := by
  intro pr hpr
  rcases mem_jobsSet m k v pr hpr with h | h
  · rw [h]; exact hv
  · exact hm pr h

theorem registryInv_delete (m : Jobs) (k : String) (hm : RegistryInv m) :
    RegistryInv (jobsDelete m k) :=
  fun pr hpr => hm pr (mem_jobsDelete m k pr hpr)

theorem registryInv_endHandler (m : Jobs) (id af : String) (hm : RegistryInv m) :
    RegistryInv (endHandler m id af) := by
  unfold endHandler
  cases h : jobsGet m id with
  | none => exact hm
  | some entry => exact registryInv_set _ _ _ hm ⟨fun _ => rfl, fun _ => rfl⟩

theorem registryInv_tryNextEncoder (id af : String) (encs : List EncoderConfig) :
    ∀ (outcomes : List AttemptOutcome) (st : ServerState),
      RegistryInv st.jobs →
      RegistryInv (tryNextEncoder id af encs outcomes st).jobs := by
  induction encs with
  | nil =>
    intro outcomes st hm
    exact registryInv_delete _ _ hm
  | cons c rest ih =>
    intro outcomes st hm
    cases outcomes with
    | nil => exact hm
    | cons o os =>
      cases o with
      | success => exact registryInv_endHandler _ _ _ hm
      | encError w => exact ih os _ hm
      | timerKill w => exact ih os _ hm
      | createFailed => exact ih os _ hm

theorem registryInv_onProgress (m : Jobs) (id : String) (p : ProgressEvent)
    (dur : ℚ) (hm : RegistryInv m)
    (hg : ∀ j, jobsGet m id = some j → j.ready = false) :
    RegistryInv (onProgress m id p dur) := by
  unfold onProgress
  cases h : jobsGet m id with
  | none => exact hm
  | some entry =>
    have hready := hg entry h
    refine registryInv_set _ _ _ hm ?_
    show storedProgress p dur = 100 ↔ entry.ready = true
    rw [hready]
    constructor
    · intro h100
      have hle : storedProgress p dur ≤ 99 := min_le_left _ _
      omega
    · intro hr
      simp at hr

theorem registryInv_uploadLocal (st : ServerState) (hasFile : Bool)
    (stem ext : String) (useF : Bool) (jobId : String) (probe : ProbeResult)
    (hm : RegistryInv st.jobs) :
    RegistryInv (uploadLocal st hasFile stem ext useF jobId probe).st.jobs := by
  cases hasFile with
  | false => exact hm
  | true =>
    cases useF with
    | false =>
      by_cases hhas : jobsHas st.jobs jobId = true
      · simpa [uploadLocal, hhas] using hm
      · simp only [uploadLocal, Bool.false_eq_true, if_false, hhas]
        simp only [Bool.not_true] at hhas
        simp [hhas]
        exact registryInv_set _ _ _ hm ⟨fun _ => rfl, fun _ => rfl⟩
    | true =>
      cases hcache : fsExists st.outputs (sanitize stem ++ "-ambient.mp4") with
      | true =>
        simp [uploadLocal, hcache, jobsHas_set_self]
        exact registryInv_set _ _ _ hm (jobInvariant_cached _ _)
      | false =>
        simp [uploadLocal, hcache, jobsHas_set_self]
        exact registryInv_set _ _ _ hm (jobInvariant_inflight _)

theorem registryInv_uploadElectron (st : ServerState) (hasPath sourceExists : Bool)
    (stem ext : String) (useF : Bool) (jobId : String) (probe : ProbeResult)
    (hm : RegistryInv st.jobs) :
    RegistryInv (uploadElectron st hasPath sourceExists stem ext useF jobId probe).st.jobs := by
  cases hasPath with
  | false => exact hm
  | true =>
    cases sourceExists with
    | false => exact hm
    | true =>
      cases useF with
      | false => exact hm
      | true =>
        cases hcache : fsExists (fsAdd st.outputs (sanitize stem ++ extOrMp4 ext))
            (sanitize stem ++ "-ambient.mp4") with
        | true =>
          simp [uploadElectron, hcache]
          exact registryInv_set _ _ _ hm (jobInvariant_cached _ _)
        | false =>
          simp [uploadElectron, hcache]
          exact registryInv_set _ _ _ hm (jobInvariant_inflight _)

theorem registryInv_applyEvent (st : ServerState) (e : Event)
    (hm : RegistryInv st.jobs) (hg : goodEvent st e = true) :
    RegistryInv (applyEvent st e).jobs := by
  cases e with
  | evUploadLocal hasFile stem ext useF jobId probe =>
    exact registryInv_uploadLocal st hasFile stem ext useF jobId probe hm
  | evUploadElectron hasPath sourceExists stem ext useF jobId probe =>
    exact registryInv_uploadElectron st hasPath sourceExists stem ext useF jobId probe hm
  | evProgress jobId p dur =>
    refine registryInv_onProgress st.jobs jobId p dur hm ?_
    intro j hj
    simp only [goodEvent, hj] at hg
    simpa using hg
  | evCascade jobId af encs outcomes =>
    exact registryInv_tryNextEncoder jobId af encs outcomes st hm

/-- C6: along every event trace that respects the in-flight delivery
discipline (`goodTrace`: progress events only reach jobs with
`ready = false`), every registry entry — in particular every completed
job, whether completed by a cascade `end` event or registered from a
cached derivative — satisfies `progress = 100` if and only if
`ready = true`. -/
theorem c6_progress_iff_ready (st : ServerState) (evs : List Event)
    (h0 : RegistryInv st.jobs) (hg : goodTrace st evs = true) :
    ∀ pr ∈ (runEvents st evs).jobs, pr.2.progress = 100 ↔ pr.2.ready = true := by
  induction evs generalizing st with
  | nil => exact h0
  | cons e es ih =>
    simp only [goodTrace, Bool.and_eq_true] at hg
    exact ih _ (registryInv_applyEvent st e h0 hg.1) hg.2

/-- Witness for C6: the empty initial state, a local upload that starts
a cascade, a stray progress event for an unknown id, and a cascade whose
first encoder errors and whose second succeeds; the completed entry
satisfies the invariant. -/
theorem c6_progress_iff_ready_witness :
    ("j1", (⟨100, true, mediaUrl "foo.mp4", some (mediaUrl "foo-ambient.mp4")⟩ : Job))
        ∈ (runEvents ⟨[], []⟩
            [.evUploadLocal true "foo" ".mp4" true "j1" .failure,
             .evProgress "ghost" ⟨some 42, none⟩ 0,
             .evCascade "j1" "foo-ambient.mp4" encoders [.encError false, .success]]).jobs
    ∧ (("j1", (⟨100, true, mediaUrl "foo.mp4",
          some (mediaUrl "foo-ambient.mp4")⟩ : Job)).2.progress = 100
        ↔ ("j1", (⟨100, true, mediaUrl "foo.mp4",
          some (mediaUrl "foo-ambient.mp4")⟩ : Job)).2.ready = true) :=
  ⟨by decide,
   c6_progress_iff_ready ⟨[], []⟩
     [.evUploadLocal true "foo" ".mp4" true "j1" .failure,
      .evProgress "ghost" ⟨some 42, none⟩ 0,
      .evCascade "j1" "foo-ambient.mp4" encoders [.encError false, .success]]
     (fun pr h => absurd h (List.not_mem_nil pr)) (by decide) _ (by decide)⟩

/-- C10: for every request to `POST /video/upload-electron` (the
path-reference ingress endpoint) with transcoding not requested, the
response carries the freshly generated job id with `ready = true`, yet
no entry for that id is created in the job registry — the registry is
left untouched — so an immediate subsequent poll of that id returns the
not-found error. -/
theorem c10_electron_untracked_ready (st : ServerState) (stem ext jobId : String)
    (probe : ProbeResult) (hfresh : jobsGet st.jobs jobId = none) :
    (uploadElectron st true true stem ext false jobId probe).cascadeStarted = false
    ∧ respIdE (uploadElectron st true true stem ext false jobId probe).resp = some jobId
    ∧ respReadyE (uploadElectron st true true stem ext false jobId probe).resp = some true
    ∧ (uploadElectron st true true stem ext false jobId probe).st.jobs = st.jobs
    ∧ getProgress (uploadElectron st true true stem ext false jobId probe).st.jobs jobId
        = .notFound := by
  refine ⟨rfl, rfl, rfl, rfl, ?_⟩
  show getProgress st.jobs jobId = .notFound
  simp [getProgress, hfresh]

/-- Witness for C10: a no-transcode electron ingress of `clip.mkv` into
an empty server. -/
theorem c10_electron_untracked_ready_witness :
    (uploadElectron ⟨[], []⟩ true true "clip" ".mkv" false "j9" .failure).cascadeStarted = false
    ∧ respIdE (uploadElectron ⟨[], []⟩ true true "clip" ".mkv" false "j9" .failure).resp
        = some "j9"
    ∧ respReadyE (uploadElectron ⟨[], []⟩ true true "clip" ".mkv" false "j9" .failure).resp
        = some true
    ∧ (uploadElectron ⟨[], []⟩ true true "clip" ".mkv" false "j9" .failure).st.jobs = []
    ∧ getProgress (uploadElectron ⟨[], []⟩ true true "clip" ".mkv" false "j9" .failure).st.jobs
        "j9" = .notFound :=
  c10_electron_untracked_ready ⟨[], []⟩ "clip" ".mkv" "j9" .failure rfl
